import Mathlib

/-!
Verification development for the UK tribunal-decisions repository.

The repository has two parts:

* a Python data pipeline (scrape, enrich, extract structured fields,
  fetch PDFs, merge England and Wales sources).  The pipeline scripts are
  not part of the visible sources, so the pipeline components are modelled
  from the specification document (each such definition carries a doc
  comment starting with "Modelled from the spec:").
* a browser frontend, docs/js/app.js, embedded here directly from the
  JavaScript source (search/filter/sort/paginate over a list of decisions).
-/

namespace Tribunal

/-! ## Pipeline data model (modelled from the spec) -/

/-- Modelled from the spec: provenance tag of a record, spec section 3
("source: enum {primary, secondary}").  The pipeline scripts that define it
are not in the visible sources. -/
inductive SourceTag where
  | primary
  | secondary
deriving DecidableEq

/-- Modelled from the spec: the per-record enrichment state machine, spec
section 3 ("enrichment_state: enum {pending, in_progress, done, failed}").
The pipeline scripts that define it are not in the visible sources. -/
inductive EnrichmentState where
  | pending
  | in_progress
  | done
  | failed
deriving DecidableEq

/-- Modelled from the spec: provenance of the full text, spec section 3
("text_source: enum {none, content-api, pdf}").  The pipeline scripts that
define it are not in the visible sources. -/
inductive TextSource where
  | none
  | content_api
  | pdf
deriving DecidableEq

/-- Modelled from the spec: an attachment descriptor (url, label), spec
section 3.  The pipeline scripts that define it are not in the visible
sources. -/
structure Attachment where
  url : String
  label : String
deriving DecidableEq

/-- Modelled from the spec: the Decision Record of the Record Store, spec
section 3 (the fields relevant to the verified claims; the immutable
discovery metadata is irrelevant to them and is elided).  The pipeline
scripts that define it are not in the visible sources. -/
structure Record where
  id : String
  source : SourceTag
  full_text : Option String
  text_source : TextSource
  attachments : List Attachment
  enrichment_state : EnrichmentState
  fail_reason : Option String
  ocr_required : Bool
deriving DecidableEq

/-- Modelled from the spec: a freshly discovered record, created by the
upstream listing step "in pending state" with no text yet (spec section 3,
Lifecycle).  The pipeline scripts that define it are not in the visible
sources. -/
def mkInitial (id : String) (src : SourceTag) : Record :=
  { id := id
    source := src
    full_text := Option.none
    text_source := TextSource.none
    attachments := []
    enrichment_state := EnrichmentState.pending
    fail_reason := Option.none
    ocr_required := false }

/-- Modelled from the spec: the resume rule of the Checkpoint Manager, spec
section 4.3: "On startup, loads the last snapshot; any identifier not
marked done is reset to pending regardless of its last observed transient
state".  The pipeline scripts that define it are not in the visible
sources. -/
def loadResume (r : Record) : Record :=
  if r.enrichment_state = EnrichmentState.done then r
  else { r with enrichment_state := EnrichmentState.pending }

/-- Modelled from the spec: loading a whole checkpoint snapshot applies the
resume rule to every record (spec section 4.3).  The pipeline scripts that
define it are not in the visible sources. -/
def loadSnapshot (rs : List Record) : List Record :=
  rs.map loadResume

/-- Modelled from the spec: the minimum-useful extracted-text length below
which the Attachment Fallback flags a record ocr_required instead of
treating it as enriched (spec section 4.4; the spec fixes no numeric value
but its example flags a 40-character extraction, so any threshold above 40
is consistent).  The pipeline scripts that define it are not in the visible
sources. -/
def minUsefulTextLen : Nat := 100

/-- Modelled from the spec: one atomic mutation of a single record by the
pipeline, covering the worker transitions of spec section 4.2 ("mark
in_progress, call Fetch Client, on success write full_text / attachments /
text_source=content-api, mark done; on FatalError mark failed"), the
run-level retry of failed records (spec section 3, state-transition
invariant), the checkpoint reload (spec section 4.3), and the Attachment
Fallback (spec section 4.4).  Per spec section 3, full_text is "present
once enrichment or fallback succeeds", so the success transitions carry the
non-empty document text.  The pipeline scripts that define these
transitions are not in the visible sources. -/
inductive Step : Record → Record → Prop where
  | mark_in_progress (r : Record)
      (hs : r.enrichment_state = EnrichmentState.pending) :
      Step r { r with enrichment_state := EnrichmentState.in_progress }
  | enrich_success (r : Record) (t : String) (atts : List Attachment)
      (hs : r.enrichment_state = EnrichmentState.in_progress) (ht : t ≠ "") :
      Step r { r with full_text := some t
                      attachments := atts
                      text_source := TextSource.content_api
                      enrichment_state := EnrichmentState.done }
  | enrich_fatal (r : Record) (reason : String)
      (hs : r.enrichment_state = EnrichmentState.in_progress) :
      Step r { r with enrichment_state := EnrichmentState.failed
                      fail_reason := some reason }
  | retry_failed (r : Record)
      (hs : r.enrichment_state = EnrichmentState.failed) :
      Step r { r with enrichment_state := EnrichmentState.pending }
  | checkpoint_reload (r : Record) :
      Step r (loadResume r)
  | fallback_success (r : Record) (t : String)
      (hempty : r.full_text = Option.none) (hatts : r.attachments ≠ [])
      (ht : minUsefulTextLen ≤ t.length) :
      Step r { r with full_text := some t, text_source := TextSource.pdf }
  | fallback_ocr (r : Record)
      (hempty : r.full_text = Option.none) (hatts : r.attachments ≠ []) :
      Step r { r with ocr_required := true }

/-- A record state reachable from another by a sequence of pipeline
mutations. -/
def Reachable : Record → Record → Prop :=
  Relation.ReflTransGen Step

/-! ## Fetch Client retry and worker pool (modelled from the spec) -/

/-- Modelled from the spec: what one attempt of the Fetch Client can
observe, spec sections 4.1 and 7: a successful payload, a transient failure
(timeout, 5xx, connection error, rate limit — retried with backoff), or a
hard failure (4xx other than rate limit — immediately fatal).  The pipeline
scripts that define it are not in the visible sources. -/
inductive AttemptOutcome where
  | success (text : String) (attachments : List Attachment)
  | transient
  | hardFail
deriving DecidableEq

/-- Modelled from the spec: the overall result of the Fetch Client contract
"fetch(identifier) -> {text, attachments} | FatalError" after the retry
loop (spec section 4.1).  The pipeline scripts that define it are not in
the visible sources. -/
inductive FetchResult where
  | ok (text : String) (attachments : List Attachment)
  | fatalError
deriving DecidableEq

/-- Trace of one run of the Fetch Client retry loop: the final result, the
number of attempts actually made, and the backoff delays slept between
attempts. -/
structure RetryTrace where
  result : FetchResult
  attemptsMade : Nat
  delays : List Nat
deriving DecidableEq

/-- Modelled from the spec: the bounded retry loop of the Fetch Client,
spec section 4.1: "Retries up to 3 attempts per identifier with exponential
backoff (base delay doubling each attempt) on transient failures"; "After 3
failed attempts, returns FatalError".  `responses i` is the outcome the
network yields for attempt number `i` (0-based); `budget` is the number of
attempts still allowed and `i` the index of the next attempt.  A backoff
delay of `baseDelay * 2 ^ i` is slept after a failed attempt `i` only when
another attempt follows.  The pipeline scripts that define it are not in
the visible sources. -/
def fetchRetryAux (responses : Nat → AttemptOutcome) (baseDelay : Nat) :
    Nat → Nat → RetryTrace
  | 0, _ => ⟨FetchResult.fatalError, 0, []⟩
  | budget + 1, i =>
    match responses i with
    | AttemptOutcome.success t atts => ⟨FetchResult.ok t atts, 1, []⟩
    | AttemptOutcome.hardFail => ⟨FetchResult.fatalError, 1, []⟩
    | AttemptOutcome.transient =>
      if budget = 0 then ⟨FetchResult.fatalError, 1, []⟩
      else
        let rest := fetchRetryAux responses baseDelay budget (i + 1)
        ⟨rest.result, rest.attemptsMade + 1, baseDelay * 2 ^ i :: rest.delays⟩

/-- Modelled from the spec: the Fetch Client entry point with its budget of
3 attempts (spec section 4.1).  The pipeline scripts that define it are not
in the visible sources. -/
def fetchRetry (responses : Nat → AttemptOutcome) (baseDelay : Nat) : RetryTrace :=
  fetchRetryAux responses baseDelay 3 0

/-- Modelled from the spec: what one enrichment worker does to one record,
spec section 4.2: on success write full_text / attachments /
text_source=content-api and mark done; on FatalError mark failed and record
the reason.  `responses` gives the network outcomes for this record's
identifier.  The pipeline scripts that define it are not in the visible
sources. -/
def processRecord (responses : String → Nat → AttemptOutcome) (baseDelay : Nat)
    (r : Record) : Record :=
  match (fetchRetry (responses r.id) baseDelay).result with
  | FetchResult.ok t atts =>
    { r with full_text := some t
             attachments := atts
             text_source := TextSource.content_api
             enrichment_state := EnrichmentState.done }
  | FetchResult.fatalError =>
    { r with enrichment_state := EnrichmentState.failed
             fail_reason := some "fetch failed after retries" }

/-- Modelled from the spec: the Enrichment Worker Pool drains the whole
work list; a FatalError on one record "does not halt the pool — the record
is marked failed and processing continues" (spec sections 4.1 and 4.2).
The pipeline scripts that define it are not in the visible sources. -/
def runPool (responses : String → Nat → AttemptOutcome) (baseDelay : Nat) :
    List Record → List Record
  | [] => []
  | r :: rs => processRecord responses baseDelay r :: runPool responses baseDelay rs

/-! ## Structured Field Extractor (modelled from the spec) -/

/-- ASCII lower-casing of one character (the model of JavaScript
toLowerCase and of Python str.lower on the ASCII range). -/
def charLower (c : Char) : Char :=
  if 'A' ≤ c ∧ c ≤ 'Z' then Char.ofNat (c.toNat + 32) else c

/-- Lower-case a character list. -/
def lowerChars (l : List Char) : List Char := l.map charLower

/-- Numeric value of a list of decimal digit characters. -/
def digitsVal (l : List Char) : Nat :=
  l.foldl (fun a c => 10 * a + (c.toNat - 48)) 0

/-- Modelled from the spec: parse one monetary amount immediately after a
pound sign, spec section 4.5: "Financial amounts are parsed as an ordered
list of decimal values in the currency's minor-unit-free form (e.g.,
£1,234.56 -> 1234.56); malformed amounts are skipped, never fatal".  The
amount is returned as (integer part, fraction numerator, fraction digit
count); a pound sign not followed by any digit is malformed and yields
Option.none.  The pipeline scripts that define it are not in the visible
sources. -/
def parseAmountAt (l : List Char) : Option (Nat × Nat × Nat) :=
  let run := l.takeWhile (fun c => c.isDigit ∨ c = ',')
  let digs := run.filter (fun c => c.isDigit)
  if digs = [] then Option.none
  else
    match l.drop run.length with
    | '.' :: rest =>
      let frac := rest.takeWhile (fun c => c.isDigit)
      some (digitsVal digs, digitsVal frac, frac.length)
    | _ => some (digitsVal digs, 0, 0)

/-- Modelled from the spec: scan the text for pound-sign amounts, in text
order (spec section 4.5).  The pipeline scripts that define it are not in
the visible sources. -/
def scanAmountTriples : List Char → List (Nat × Nat × Nat)
  | [] => []
  | c :: rest =>
    (if c = '£' then (parseAmountAt rest).toList else []) ++ scanAmountTriples rest

/-- The decimal value denoted by an (integer part, fraction numerator,
fraction digit count) triple. -/
def tripleToRat (p : Nat × Nat × Nat) : ℚ :=
  (p.1 : ℚ) + (p.2.1 : ℚ) / 10 ^ p.2.2

/-- Modelled from the spec: the financial_amounts extraction rule, spec
section 4.5.  The pipeline scripts that define it are not in the visible
sources. -/
def financialAmounts (t : String) : List ℚ :=
  (scanAmountTriples t.toList).map tripleToRat

/-- Modelled from the spec: recognise a citation of a statute at the head
of the character list; the spec fixes only that acts are recognised by a
pattern rule (section 4.5), so the model uses the minimal pattern "Act "
followed by a four-digit year, naming the act by that matched text.  The
pipeline scripts that define the exact pattern are not in the visible
sources. -/
def actAt : List Char → Option String
  | 'A' :: 'c' :: 't' :: ' ' :: d1 :: d2 :: d3 :: d4 :: _ =>
    if d1.isDigit ∧ d2.isDigit ∧ d3.isDigit ∧ d4.isDigit then
      some (String.mk ['A', 'c', 't', ' ', d1, d2, d3, d4])
    else Option.none
  | _ => Option.none

/-- Modelled from the spec: all act citations in the text, in text order,
one candidate match per starting position (spec section 4.5).  The pipeline
scripts that define it are not in the visible sources. -/
def actMatches : List Char → List String
  | [] => []
  | c :: rest =>
    match actAt (c :: rest) with
    | some s => s :: actMatches rest
    | Option.none => actMatches rest

/-- Remove duplicates from a list keeping the first occurrence of each
element; `seen` accumulates the elements already emitted. -/
def dedupFirstAux (seen : List String) : List String → List String
  | [] => []
  | x :: xs =>
    if x ∈ seen then dedupFirstAux seen xs
    else x :: dedupFirstAux (x :: seen) xs

/-- Modelled from the spec: "Legal acts cited are deduplicated within a
record but preserve first-seen order" (spec section 4.5).  The pipeline
scripts that define it are not in the visible sources. -/
def legalActsCited (t : String) : List String :=
  dedupFirstAux [] (actMatches t.toList)

/-- Index of the first occurrence of `a` in the list (the list's length if
absent). -/
def firstIdx (a : String) : List String → Nat
  | [] => 0
  | x :: xs => if x = a then 0 else firstIdx a xs + 1

/-- Does `needle` occur as a contiguous run inside `hay`? -/
def occursChars (needle : List Char) : List Char → Bool
  | [] => needle.isEmpty
  | c :: rest => needle.isPrefixOf (c :: rest) || occursChars needle rest

/-- Text after the first occurrence of `marker`, up to the end of the
line. -/
def afterMarker (marker : List Char) : List Char → Option (List Char)
  | [] => Option.none
  | c :: rest =>
    if marker.isPrefixOf (c :: rest) then
      some (((c :: rest).drop marker.length).takeWhile (fun d => d ≠ '\n'))
    else afterMarker marker rest

/-- Modelled from the spec: a marker-based single-field rule ("Applicant:
Jane Doe" yields applicant "Jane Doe", spec section 8 example).  The
pipeline scripts that define it are not in the visible sources. -/
def markerField (marker : String) (t : String) : Option String :=
  (afterMarker marker.toList t.toList).map String.mk

/-- Modelled from the spec: the bundle of derived structured fields, spec
section 3 (the fields relevant to the verified claims).  The pipeline
scripts that define it are not in the visible sources. -/
structure StructuredFields where
  applicant : Option String
  respondent : Option String
  financial_amounts : List ℚ
  legal_acts_cited : List String
deriving DecidableEq

/-- Modelled from the spec: the Structured Field Extractor, spec section
4.5 — a pure function of the full text only: each field has its own
independent rule, there are no network calls and no other inputs.  The
pipeline scripts that define it are not in the visible sources. -/
def extractStructured (t : String) : StructuredFields :=
  { applicant := markerField "Applicant: " t
    respondent := markerField "Respondent: " t
    financial_amounts := financialAmounts t
    legal_acts_cited := legalActsCited t }

/-! ## Merge Reducer (modelled from the spec) -/

/-- Modelled from the spec: the dedup key of the Merge Reducer, spec
section 4.6: "Dedup key: (source, id)".  The pipeline scripts that define
it are not in the visible sources. -/
def mergeKey (r : Record) : SourceTag × String :=
  (r.source, r.id)

/-- Deduplicate a record list by merge key, keeping the first record seen
for each key; `seen` accumulates the keys already emitted. -/
def dedupByKeyAux (seen : List (SourceTag × String)) : List Record → List Record
  | [] => []
  | r :: rs =>
    if mergeKey r ∈ seen then dedupByKeyAux seen rs
    else r :: dedupByKeyAux (mergeKey r :: seen) rs

/-- Modelled from the spec: the Merge Reducer concatenates the two sources
and dedupes by (source, id) (spec section 4.6: records are "concatenated
rather than unioned", dedup key (source, id)).  The pipeline scripts that
define it are not in the visible sources. -/
def mergeReduce (a b : List Record) : List Record :=
  dedupByKeyAux [] (a ++ b)

/-! ## Frontend model (embedded from docs/js/app.js) -/

/-- Page size of the results view (app.js line 4). -/
def PAGE_SIZE : Nat := 50

/-- One decision object of docs/data/decisions.json as read by app.js.
Every field the script touches may be absent, hence Option; the JavaScript
idiom (d.x || "") is modelled by Option.getD "". -/
structure Decision where
  property_address : Option String
  case_reference : Option String
  description : Option String
  applicant : Option String
  respondent : Option String
  presiding_judge : Option String
  decision_outcome : Option String
  search_keywords : Option String
  category_label : Option String
  sub_category_label : Option String
  region_code : Option String
  decision_date : Option String
  url : Option String
deriving DecidableEq

/-- The JavaScript idiom (x || "") on a possibly-absent string field. -/
def jsStr (x : Option String) : String := x.getD ""

/-- The searchable haystack of applyFilters (app.js lines 254-263): the
eight text fields joined by single spaces, lower-cased. -/
def searchableOf (d : Decision) : List Char :=
  lowerChars
    (jsStr d.property_address ++ " " ++ jsStr d.case_reference ++ " " ++
      jsStr d.description ++ " " ++ jsStr d.applicant ++ " " ++
      jsStr d.respondent ++ " " ++ jsStr d.presiding_judge ++ " " ++
      jsStr d.decision_outcome ++ " " ++ jsStr d.search_keywords).toList

/-- Maximal whitespace-free words of a character list, in order; `cur`
accumulates the reversed current word.  This models
query.split(/\s+/).filter(Boolean) in app.js line 231: splitting a string
on whitespace runs and dropping empty pieces yields exactly its words. -/
def wordsAux (cur : List Char) : List Char → List (List Char)
  | [] => if cur = [] then [] else [cur.reverse]
  | c :: rest =>
    if c.isWhitespace then
      if cur = [] then wordsAux [] rest else cur.reverse :: wordsAux [] rest
    else wordsAux (c :: cur) rest

/-- The search tokens of applyFilters (app.js lines 223 and 231): the query
is trimmed and lower-cased, then split into whitespace-separated tokens
(trimming first and splitting on whitespace gives the same tokens as
splitting the untrimmed string). -/
def queryTokens (rawQuery : String) : List (List Char) :=
  wordsAux [] (lowerChars rawQuery.toList)

/-- The model of JavaScript parseInt on the first four characters of a date
string (app.js lines 132 and 246): the value of the leading digit run, or
Option.none when there is no leading digit (parseInt returns NaN there; the
inputs are date strings, so the sign and leading-whitespace cases of
parseInt cannot arise). -/
def parseYearChars (l : List Char) : Option Nat :=
  let ds := l.takeWhile (fun c => c.isDigit)
  if ds = [] then Option.none else some (digitsVal ds)

/-- The year filter of applyFilters (app.js lines 244-250): a dated
decision is excluded when its parsed year falls outside [yearFrom, yearTo]
(a NaN year compares false on both sides, so it never excludes); an undated
decision is excluded exactly when yearFrom is positive. -/
def yearPass (d : Decision) (yearFrom yearTo : Nat) : Bool :=
  match d.decision_date with
  | some ds =>
    match parseYearChars (ds.toList.take 4) with
    | some y => !(decide (y < yearFrom) || decide (y > yearTo))
    | Option.none => true
  | Option.none => !decide (0 < yearFrom)

/-- The text search of applyFilters (app.js lines 252-267): every token
must occur somewhere in the searchable haystack. -/
def textPass (d : Decision) (tokens : List (List Char)) : Bool :=
  tokens.all (fun tok => occursChars tok (searchableOf d))

/-- The region value of a decision (app.js line 241: d.region_code ||
"Unknown"; an empty string is falsy in JavaScript). -/
def regionOf (d : Decision) : String :=
  match d.region_code with
  | some s => if s = "" then "Unknown" else s
  | Option.none => "Unknown"

/-- The complete per-decision predicate of applyFilters (app.js lines
233-270).  An empty string for cat / subcat / region means the filter is
off (falsy in JavaScript); yearFrom = 0 and yearTo = 9999 are the defaults
used when the year dropdowns are empty (app.js lines 227-228).  The
category and sub-category comparisons d.category_label !== cat are false
when the field is absent, hence the Option equality with some cat. -/
def decisionPass (tokens : List (List Char)) (cat subcat region : String)
    (yearFrom yearTo : Nat) (d : Decision) : Bool :=
  (decide (cat = "") || decide (d.category_label = some cat)) &&
  (decide (subcat = "") || decide (d.sub_category_label = some subcat)) &&
  (decide (region = "") || decide (regionOf d = region)) &&
  yearPass d yearFrom yearTo &&
  textPass d tokens

/-- The filtered decision list computed by applyFilters (app.js lines
233-270). -/
def applyFiltersList (all : List Decision) (rawQuery cat subcat region : String)
    (yearFrom yearTo : Nat) : List Decision :=
  all.filter (decisionPass (queryTokens rawQuery) cat subcat region yearFrom yearTo)

/-- Total page count used by renderResults (app.js line 314):
max(1, ceil(total / PAGE_SIZE)). -/
def totalPagesOf (total : Nat) : Nat :=
  max 1 ((total + PAGE_SIZE - 1) / PAGE_SIZE)

/-- The mutable state of the results view: the loaded dataset, the current
filtered list, the current page and the current comparator selected by the
sort control (the comparator itself only reorders and is irrelevant to the
pagination bounds). -/
structure UIState where
  all : List Decision
  filtered : List Decision
  currentPage : Nat
  sortLe : Decision → Decision → Bool

/-- The page clamp at the top of renderResults (app.js line 315): if
currentPage exceeds the total page count it is pulled down to it. -/
def clampedPage (s : UIState) : Nat :=
  if s.currentPage > totalPagesOf s.filtered.length then totalPagesOf s.filtered.length
  else s.currentPage

/-- renderResults (app.js lines 312-359): clamps currentPage down to the
total page count, slices the current page out of the filtered list (start =
(page - 1) * PAGE_SIZE, end = min(start + PAGE_SIZE, total), and
slice(start, end) is (drop start).take (end - start)) and returns the new
state together with the number of decision rows rendered.  The model uses
Nat arithmetic, which agrees with the JavaScript on every call site because
every call site establishes currentPage >= 1. -/
def renderResults (s : UIState) : UIState × Nat :=
  ({ s with currentPage := clampedPage s },
    ((s.filtered.drop ((clampedPage s - 1) * PAGE_SIZE)).take
      (min ((clampedPage s - 1) * PAGE_SIZE + PAGE_SIZE) s.filtered.length -
        (clampedPage s - 1) * PAGE_SIZE)).length)

/-- The user events that can reach renderResults: applyFilters (search
button, enter key, any filter change, clear; app.js lines 222-275),
a sort-order change (app.js lines 287-292), and the two pagination buttons
(app.js lines 361-374). -/
inductive UIEvent where
  | applyFiltersEv (rawQuery cat subcat region : String) (yearFrom yearTo : Nat)
  | sortChangeEv (le : Decision → Decision → Bool)
  | prevPageEv
  | nextPageEv

/-- One event-handler step of app.js.  applyFilters recomputes the
filtered list, sorts it, resets to page 1 and renders; onSortChange
re-sorts, resets to page 1 and renders; prevPage decrements only when
currentPage > 1 and renders; nextPage increments only when currentPage <
ceil(total / PAGE_SIZE) (no max with 1 here, app.js line 369) and
renders. -/
def stepUI (s : UIState) : UIEvent → UIState
  | UIEvent.applyFiltersEv rawQuery cat subcat region yearFrom yearTo =>
    let fl := applyFiltersList s.all rawQuery cat subcat region yearFrom yearTo
    (renderResults { s with filtered := fl.mergeSort s.sortLe, currentPage := 1 }).1
  | UIEvent.sortChangeEv le =>
    (renderResults { s with filtered := s.filtered.mergeSort le, currentPage := 1,
                            sortLe := le }).1
  | UIEvent.prevPageEv =>
    if s.currentPage > 1 then
      (renderResults { s with currentPage := s.currentPage - 1 }).1
    else s
  | UIEvent.nextPageEv =>
    if s.currentPage < (s.filtered.length + PAGE_SIZE - 1) / PAGE_SIZE then
      (renderResults { s with currentPage := s.currentPage + 1 }).1
    else s

/-- The state after loading the dataset: loadData stores the decisions and
runs applyFilters with everything empty (app.js lines 97-118), which
renders page 1 of the full list. -/
def initUI (all : List Decision) (le : Decision → Decision → Bool) : UIState :=
  stepUI { all := all, filtered := [], currentPage := 1, sortLe := le }
    (UIEvent.applyFiltersEv "" "" "" "" 0 9999)

/-- The state after an arbitrary interaction sequence. -/
def runUI (all : List Decision) (le : Decision → Decision → Bool)
    (evs : List UIEvent) : UIState :=
  evs.foldl stepUI (initUI all le)

/-- A concrete decision (a record of decisions.json with every optional
field absent), used in concrete instance checks. -/
def sampleDecision : Decision :=
  { property_address := Option.none
    case_reference := Option.none
    description := Option.none
    applicant := Option.none
    respondent := Option.none
    presiding_judge := Option.none
    decision_outcome := Option.none
    search_keywords := Option.none
    category_label := Option.none
    sub_category_label := Option.none
    region_code := Option.none
    decision_date := Option.none
    url := Option.none }

/-! ## Theorems -/

theorem loadResume_state (r : Record) :
    (loadResume r).enrichment_state =
      (if r.enrichment_state = EnrichmentState.done then EnrichmentState.done
       else EnrichmentState.pending) := by
  unfold loadResume
  split
  · next h => simp [h]
  · rfl

/-- C1: for every checkpoint snapshot, the startup load operation resets
every record whose enrichment_state is not done to pending; in particular
no loaded record is in_progress, and every loaded record is either done or
pending. -/
theorem claim1_checkpoint_load_resets_states (rs : List Record) :
    (∀ r ∈ rs, r.enrichment_state ≠ EnrichmentState.done →
      (loadResume r).enrichment_state = EnrichmentState.pending) ∧
    (∀ r ∈ loadSnapshot rs,
      (r.enrichment_state = EnrichmentState.done ∨
        r.enrichment_state = EnrichmentState.pending) ∧
      r.enrichment_state ≠ EnrichmentState.in_progress) := by
  constructor
  · intro r _ hne
    rw [loadResume_state]
    simp [hne]
  · intro r hr
    rcases List.mem_map.mp hr with ⟨r₀, _, rfl⟩
    rw [loadResume_state]
    by_cases h : r₀.enrichment_state = EnrichmentState.done <;> simp [h]

theorem claim1_witness :
    (({ mkInitial "a" SourceTag.primary with
        enrichment_state := EnrichmentState.in_progress } : Record) ∈
      ([{ mkInitial "a" SourceTag.primary with
          enrichment_state := EnrichmentState.in_progress }] : List Record)) ∧
    ({ mkInitial "a" SourceTag.primary with
        enrichment_state := EnrichmentState.in_progress } : Record).enrichment_state ≠
      EnrichmentState.done ∧
    (loadResume { mkInitial "a" SourceTag.primary with
        enrichment_state := EnrichmentState.in_progress }).enrichment_state =
      EnrichmentState.pending :=
  ⟨by simp, by decide,
    (claim1_checkpoint_load_resets_states
      [{ mkInitial "a" SourceTag.primary with
          enrichment_state := EnrichmentState.in_progress }]).1
      _ (by simp) (by decide)⟩

theorem step_preserves_done_inv (a b : Record)
    (hstep : Step a b)
    (ha : a.enrichment_state = EnrichmentState.done →
      (∃ t, a.full_text = some t ∧ t ≠ "") ∧ a.text_source ≠ TextSource.none) :
    b.enrichment_state = EnrichmentState.done →
      (∃ t, b.full_text = some t ∧ t ≠ "") ∧ b.text_source ≠ TextSource.none := by
  cases hstep with
  | mark_in_progress hs => intro hdone; simp at hdone
  | enrich_success t atts hs ht =>
    intro _
    exact ⟨⟨t, rfl, ht⟩, by simp⟩
  | enrich_fatal reason hs => intro hdone; simp at hdone
  | retry_failed hs => intro hdone; simp at hdone
  | checkpoint_reload =>
    unfold loadResume
    split
    · exact ha
    · intro hdone; simp at hdone
  | fallback_success t hempty hatts ht =>
    intro _
    refine ⟨⟨t, rfl, ?_⟩, by simp⟩
    intro hteq
    subst hteq
    simp [minUsefulTextLen] at ht
  | fallback_ocr hempty hatts =>
    intro hdone
    exact ha hdone

/-- C2: in every record state reachable by the pipeline's operations from a
freshly created (pending) record, enrichment_state = done implies that
full_text is present and non-empty and text_source is set (not none). -/
theorem claim2_done_has_text (r₀ r : Record)
    (h₀ : r₀.enrichment_state = EnrichmentState.pending)
    (hre : Reachable r₀ r)
    (hdone : r.enrichment_state = EnrichmentState.done) :
    (∃ t, r.full_text = some t ∧ t ≠ "") ∧ r.text_source ≠ TextSource.none := by
  unfold Reachable at hre
  revert hdone
  induction hre with
  | refl => intro hd; rw [h₀] at hd; cases hd
  | tail _ hbc ih => exact step_preserves_done_inv _ _ hbc ih

theorem claim2_witness :
    (mkInitial "x" SourceTag.primary).enrichment_state = EnrichmentState.pending ∧
    Reachable (mkInitial "x" SourceTag.primary)
      { mkInitial "x" SourceTag.primary with
          full_text := some "decision text"
          attachments := []
          text_source := TextSource.content_api
          enrichment_state := EnrichmentState.done } ∧
    ({ mkInitial "x" SourceTag.primary with
        full_text := some "decision text"
        attachments := []
        text_source := TextSource.content_api
        enrichment_state := EnrichmentState.done } : Record).enrichment_state =
      EnrichmentState.done ∧
    ((∃ t, ({ mkInitial "x" SourceTag.primary with
        full_text := some "decision text"
        attachments := []
        text_source := TextSource.content_api
        enrichment_state := EnrichmentState.done } : Record).full_text = some t ∧ t ≠ "") ∧
      ({ mkInitial "x" SourceTag.primary with
        full_text := some "decision text"
        attachments := []
        text_source := TextSource.content_api
        enrichment_state := EnrichmentState.done } : Record).text_source ≠ TextSource.none) := by
  have hreach : Reachable (mkInitial "x" SourceTag.primary)
      { mkInitial "x" SourceTag.primary with
          full_text := some "decision text"
          attachments := []
          text_source := TextSource.content_api
          enrichment_state := EnrichmentState.done } :=
    Relation.ReflTransGen.tail
      (Relation.ReflTransGen.tail Relation.ReflTransGen.refl
        (Step.mark_in_progress (mkInitial "x" SourceTag.primary) rfl))
      (Step.enrich_success
        { mkInitial "x" SourceTag.primary with
            enrichment_state := EnrichmentState.in_progress }
        "decision text" [] rfl (by decide))
  exact ⟨rfl, hreach, rfl,
    claim2_done_has_text _ _ rfl hreach rfl⟩

theorem fetchRetryAux_zero (responses : Nat → AttemptOutcome) (baseDelay i : Nat) :
    fetchRetryAux responses baseDelay 0 i = ⟨FetchResult.fatalError, 0, []⟩ := rfl

theorem fetchRetryAux_success (responses : Nat → AttemptOutcome) (baseDelay b i : Nat)
    (t : String) (atts : List Attachment)
    (h : responses i = AttemptOutcome.success t atts) :
    fetchRetryAux responses baseDelay (b + 1) i = ⟨FetchResult.ok t atts, 1, []⟩ := by
  unfold fetchRetryAux
  rw [h]

theorem fetchRetryAux_hard (responses : Nat → AttemptOutcome) (baseDelay b i : Nat)
    (h : responses i = AttemptOutcome.hardFail) :
    fetchRetryAux responses baseDelay (b + 1) i = ⟨FetchResult.fatalError, 1, []⟩ := by
  unfold fetchRetryAux
  rw [h]

theorem fetchRetryAux_transient_last (responses : Nat → AttemptOutcome) (baseDelay i : Nat)
    (h : responses i = AttemptOutcome.transient) :
    fetchRetryAux responses baseDelay 1 i = ⟨FetchResult.fatalError, 1, []⟩ := by
  unfold fetchRetryAux
  rw [h]
  rfl

theorem fetchRetryAux_transient_step (responses : Nat → AttemptOutcome) (baseDelay b i : Nat)
    (h : responses i = AttemptOutcome.transient) :
    fetchRetryAux responses baseDelay (b + 2) i =
      ⟨(fetchRetryAux responses baseDelay (b + 1) (i + 1)).result,
        (fetchRetryAux responses baseDelay (b + 1) (i + 1)).attemptsMade + 1,
        baseDelay * 2 ^ i :: (fetchRetryAux responses baseDelay (b + 1) (i + 1)).delays⟩ := by
  conv_lhs => rw [fetchRetryAux]
  rw [h]
  rfl

theorem fetchRetryAux_attempts_le (responses : Nat → AttemptOutcome) (baseDelay : Nat) :
    ∀ budget i, (fetchRetryAux responses baseDelay budget i).attemptsMade ≤ budget := by
  intro budget
  induction budget with
  | zero => intro i; rw [fetchRetryAux_zero]
  | succ b ih =>
    intro i
    cases hr : responses i with
    | success t atts =>
      rw [fetchRetryAux_success responses baseDelay b i t atts hr]
      show 1 ≤ b + 1
      omega
    | hardFail =>
      rw [fetchRetryAux_hard responses baseDelay b i hr]
      show 1 ≤ b + 1
      omega
    | transient =>
      cases b with
      | zero => rw [fetchRetryAux_transient_last responses baseDelay i hr]
      | succ b' =>
        rw [fetchRetryAux_transient_step responses baseDelay b' i hr]
        have := ih (i + 1)
        simp only []
        omega

theorem fetchRetryAux_delays (responses : Nat → AttemptOutcome) (baseDelay : Nat) :
    ∀ budget i j, j < (fetchRetryAux responses baseDelay budget i).delays.length →
      (fetchRetryAux responses baseDelay budget i).delays.getD j 0 =
        baseDelay * 2 ^ (i + j) := by
  intro budget
  induction budget with
  | zero => intro i j hj; rw [fetchRetryAux_zero] at hj; simp at hj
  | succ b ih =>
    intro i j hj
    cases hr : responses i with
    | success t atts =>
      rw [fetchRetryAux_success responses baseDelay b i t atts hr] at hj
      simp at hj
    | hardFail =>
      rw [fetchRetryAux_hard responses baseDelay b i hr] at hj
      simp at hj
    | transient =>
      cases b with
      | zero =>
        rw [fetchRetryAux_transient_last responses baseDelay i hr] at hj
        simp at hj
      | succ b' =>
        rw [fetchRetryAux_transient_step responses baseDelay b' i hr] at hj ⊢
        cases j with
        | zero => simp
        | succ j' =>
          simp only [List.getD_cons_succ]
          simp only [List.length_cons, Nat.add_lt_add_iff_right] at hj
          rw [ih (i + 1) j' hj]
          ring_nf

theorem fetchRetryAux_all_transient (responses : Nat → AttemptOutcome) (baseDelay : Nat) :
    ∀ budget i, (∀ k, i ≤ k → k < i + budget → responses k = AttemptOutcome.transient) →
      (fetchRetryAux responses baseDelay budget i).result = FetchResult.fatalError := by
  intro budget
  induction budget with
  | zero => intro i _; rw [fetchRetryAux_zero]
  | succ b ih =>
    intro i hall
    have hr : responses i = AttemptOutcome.transient := hall i (Nat.le_refl i) (by omega)
    cases b with
    | zero => rw [fetchRetryAux_transient_last responses baseDelay i hr]
    | succ b' =>
      rw [fetchRetryAux_transient_step responses baseDelay b' i hr]
      exact ih (i + 1) (fun k hk1 hk2 => hall k (by omega) (by omega))

theorem runPool_length (responses : String → Nat → AttemptOutcome) (baseDelay : Nat) :
    ∀ rs : List Record, (runPool responses baseDelay rs).length = rs.length := by
  intro rs
  induction rs with
  | nil => rfl
  | cons r rs ih => simp [runPool, ih]

theorem runPool_get? (responses : String → Nat → AttemptOutcome) (baseDelay : Nat) :
    ∀ (rs : List Record) (i : Nat),
      (runPool responses baseDelay rs).get? i =
        (rs.get? i).map (processRecord responses baseDelay) := by
  intro rs
  induction rs with
  | nil => intro i; simp [runPool]
  | cons r rs ih =>
    intro i
    cases i with
    | zero => simp [runPool]
    | succ i' => simpa [runPool] using ih i'

/-- C3: the Fetch Client makes at most 3 attempts per identifier, the
backoff delay doubles on every retry (delay number j is baseDelay times 2
to the j), three transient failures yield FatalError, a FatalError only
marks that record failed with its reason, and the worker pool still
processes every record in the list (the output keeps one processed record
per input record). -/
theorem claim3_retry_bounded_pool_continues
    (responses : String → Nat → AttemptOutcome) (baseDelay : Nat)
    (rs : List Record) (id : String) :
    (fetchRetry (responses id) baseDelay).attemptsMade ≤ 3 ∧
    (∀ j, j < (fetchRetry (responses id) baseDelay).delays.length →
      (fetchRetry (responses id) baseDelay).delays.getD j 0 = baseDelay * 2 ^ j) ∧
    ((∀ i, i < 3 → responses id i = AttemptOutcome.transient) →
      (fetchRetry (responses id) baseDelay).result = FetchResult.fatalError) ∧
    (∀ r : Record, (∀ i, i < 3 → responses r.id i = AttemptOutcome.transient) →
      processRecord responses baseDelay r =
        { r with enrichment_state := EnrichmentState.failed
                 fail_reason := some "fetch failed after retries" }) ∧
    (runPool responses baseDelay rs).length = rs.length ∧
    (∀ i, (runPool responses baseDelay rs).get? i =
      (rs.get? i).map (processRecord responses baseDelay)) := by
  refine ⟨fetchRetryAux_attempts_le _ _ 3 0, ?_, ?_, ?_,
    runPool_length _ _ rs, runPool_get? _ _ rs⟩
  · intro j hj
    have h := fetchRetryAux_delays (responses id) baseDelay 3 0 j hj
    simpa using h
  · intro hall
    exact fetchRetryAux_all_transient (responses id) baseDelay 3 0
      (fun k _ hk => hall k (by omega))
  · intro r hall
    unfold processRecord
    have h := fetchRetryAux_all_transient (responses r.id) baseDelay 3 0
      (fun k _ hk => hall k (by omega))
    unfold fetchRetry
    rw [h]

theorem claim3_witness :
    ((1 : Nat) < (fetchRetry ((fun (_ : String) (_ : Nat) => AttemptOutcome.transient) "a")
        7).delays.length) ∧
    ((∀ i, i < 3 →
      (fun (_ : String) (_ : Nat) => AttemptOutcome.transient) "a" i =
        AttemptOutcome.transient)) ∧
    (fetchRetry ((fun (_ : String) (_ : Nat) => AttemptOutcome.transient) "a")
        7).attemptsMade ≤ 3 ∧
    (fetchRetry ((fun (_ : String) (_ : Nat) => AttemptOutcome.transient) "a")
        7).delays.getD 1 0 = 7 * 2 ^ 1 ∧
    (fetchRetry ((fun (_ : String) (_ : Nat) => AttemptOutcome.transient) "a")
        7).result = FetchResult.fatalError ∧
    processRecord (fun (_ : String) (_ : Nat) => AttemptOutcome.transient) 7
        (mkInitial "a" SourceTag.primary) =
      { mkInitial "a" SourceTag.primary with
          enrichment_state := EnrichmentState.failed
          fail_reason := some "fetch failed after retries" } ∧
    (runPool (fun (_ : String) (_ : Nat) => AttemptOutcome.transient) 7
        [mkInitial "a" SourceTag.primary]).length =
      ([mkInitial "a" SourceTag.primary] : List Record).length :=
  ⟨by decide, fun i _ => rfl,
    (claim3_retry_bounded_pool_continues
      (fun _ _ => AttemptOutcome.transient) 7 [mkInitial "a" SourceTag.primary] "a").1,
    (claim3_retry_bounded_pool_continues
      (fun _ _ => AttemptOutcome.transient) 7 [mkInitial "a" SourceTag.primary] "a").2.1
      1 (by decide),
    (claim3_retry_bounded_pool_continues
      (fun _ _ => AttemptOutcome.transient) 7 [mkInitial "a" SourceTag.primary] "a").2.2.1
      (fun i _ => rfl),
    (claim3_retry_bounded_pool_continues
      (fun _ _ => AttemptOutcome.transient) 7 [mkInitial "a" SourceTag.primary] "a").2.2.2.1
      (mkInitial "a" SourceTag.primary) (fun i _ => rfl),
    (claim3_retry_bounded_pool_continues
      (fun _ _ => AttemptOutcome.transient) 7 [mkInitial "a" SourceTag.primary] "a").2.2.2.2.1⟩

/-- C4: the Structured Field Extractor is deterministic — its output is a
function of the full text alone (it is a pure Lean function with the full
text as its only argument: no network, no other state), so equal inputs
give identical structured output. -/
theorem claim4_extractor_deterministic (t₁ t₂ : String) (h : t₁ = t₂) :
    extractStructured t₁ = extractStructured t₂ := by
  rw [h]

theorem claim4_witness :
    ("Applicant: Jane Doe" : String) = "Applicant: Jane Doe" ∧
    extractStructured "Applicant: Jane Doe" = extractStructured "Applicant: Jane Doe" :=
  ⟨rfl, claim4_extractor_deterministic "Applicant: Jane Doe" "Applicant: Jane Doe" rfl⟩

theorem tripleToRat_nonneg (p : Nat × Nat × Nat) : 0 ≤ tripleToRat p := by
  unfold tripleToRat
  positivity

/-- C5: financial-amount extraction parses currency text to minor-unit-free
decimals (a text whose only monetary mention is £950.00 yields [950.00],
and £1,234.56 parses to 1234.56), a malformed amount (a pound sign with no
digits) is skipped without any error, and every extracted amount is a
non-negative decimal. -/
theorem claim5_financial_amounts :
    (∀ (t : String) (q : ℚ), q ∈ financialAmounts t → 0 ≤ q) ∧
    financialAmounts "The tribunal awarded a sum of £950.00 to the applicant" =
      [(950 : ℚ)] ∧
    financialAmounts "service charges of £1,234.56 were found payable" =
      [(1234.56 : ℚ)] ∧
    financialAmounts "the £ sign alone, with no digits, is malformed" = [] := by
  refine ⟨?_, ?_, ?_, ?_⟩
  · intro t q hq
    unfold financialAmounts at hq
    rcases List.mem_map.mp hq with ⟨p, _, rfl⟩
    exact tripleToRat_nonneg p
  · show List.map tripleToRat (scanAmountTriples _) = _
    rw [show scanAmountTriples
        "The tribunal awarded a sum of £950.00 to the applicant".toList =
        [(950, 0, 2)] from by decide]
    simp [tripleToRat]
  · show List.map tripleToRat (scanAmountTriples _) = _
    rw [show scanAmountTriples
        "service charges of £1,234.56 were found payable".toList =
        [(1234, 56, 2)] from by decide]
    simp only [List.map_cons, List.map_nil, tripleToRat]
    norm_num
  · show List.map tripleToRat (scanAmountTriples _) = _
    rw [show scanAmountTriples
        "the £ sign alone, with no digits, is malformed".toList = [] from by decide]
    rfl

theorem claim5_witness :
    tripleToRat (1, 50, 2) ∈ financialAmounts "a fee of £1.50 was charged" ∧
    0 ≤ tripleToRat (1, 50, 2) := by
  have hmem : tripleToRat (1, 50, 2) ∈ financialAmounts "a fee of £1.50 was charged" := by
    show tripleToRat (1, 50, 2) ∈ List.map tripleToRat (scanAmountTriples _)
    rw [show scanAmountTriples "a fee of £1.50 was charged".toList =
        [(1, 50, 2)] from by decide]
    simp
  exact ⟨hmem, claim5_financial_amounts.1 "a fee of £1.50 was charged" _ hmem⟩

theorem dedupByKeyAux_cons_mem (seen : List (SourceTag × String)) (r : Record)
    (rs : List Record) (h : mergeKey r ∈ seen) :
    dedupByKeyAux seen (r :: rs) = dedupByKeyAux seen rs := by
  conv_lhs => unfold dedupByKeyAux
  rw [if_pos h]

theorem dedupByKeyAux_cons_nomem (seen : List (SourceTag × String)) (r : Record)
    (rs : List Record) (h : mergeKey r ∉ seen) :
    dedupByKeyAux seen (r :: rs) = r :: dedupByKeyAux (mergeKey r :: seen) rs := by
  conv_lhs => unfold dedupByKeyAux
  rw [if_neg h]

theorem dedupByKeyAux_all_seen (l : List Record) :
    ∀ seen, (∀ r ∈ l, mergeKey r ∈ seen) → dedupByKeyAux seen l = [] := by
  induction l with
  | nil => intro seen _; rfl
  | cons r rs ih =>
    intro seen h
    rw [dedupByKeyAux_cons_mem seen r rs (h r (List.mem_cons_self r rs))]
    exact ih seen (fun x hx => h x (List.mem_cons_of_mem r hx))

theorem dedupByKeyAux_disjoint (l : List Record) :
    ∀ seen, (l.map mergeKey).Nodup → (∀ k ∈ l.map mergeKey, k ∉ seen) →
      dedupByKeyAux seen l = l := by
  induction l with
  | nil => intro seen _ _; rfl
  | cons r rs ih =>
    intro seen hnd hdisj
    rw [List.map_cons, List.nodup_cons] at hnd
    rw [dedupByKeyAux_cons_nomem seen r rs (hdisj (mergeKey r) (by simp))]
    congr 1
    refine ih (mergeKey r :: seen) hnd.2 ?_
    intro k hk
    simp only [List.mem_cons]
    rintro (rfl | hkseen)
    · exact hnd.1 hk
    · exact hdisj k (by simp [hk]) hkseen

theorem dedupByKeyAux_congr (l : List Record) :
    ∀ s₁ s₂, (∀ k, k ∈ s₁ ↔ k ∈ s₂) → dedupByKeyAux s₁ l = dedupByKeyAux s₂ l := by
  induction l with
  | nil => intro _ _ _; rfl
  | cons r rs ih =>
    intro s₁ s₂ hiff
    by_cases h1 : mergeKey r ∈ s₁
    · rw [dedupByKeyAux_cons_mem s₁ r rs h1,
        dedupByKeyAux_cons_mem s₂ r rs ((hiff (mergeKey r)).mp h1)]
      exact ih s₁ s₂ hiff
    · rw [dedupByKeyAux_cons_nomem s₁ r rs h1,
        dedupByKeyAux_cons_nomem s₂ r rs (fun h2 => h1 ((hiff (mergeKey r)).mpr h2))]
      congr 1
      refine ih _ _ ?_
      intro k
      simp only [List.mem_cons]
      rw [hiff k]

theorem dedupByKeyAux_append (l : List Record) :
    ∀ seen rest, (l.map mergeKey).Nodup → (∀ k ∈ l.map mergeKey, k ∉ seen) →
      dedupByKeyAux seen (l ++ rest) =
        l ++ dedupByKeyAux (l.map mergeKey ++ seen) rest := by
  induction l with
  | nil => intro seen rest _ _; simp
  | cons r rs ih =>
    intro seen rest hnd hdisj
    rw [List.map_cons, List.nodup_cons] at hnd
    rw [List.cons_append,
      dedupByKeyAux_cons_nomem seen r (rs ++ rest) (hdisj (mergeKey r) (by simp))]
    rw [ih (mergeKey r :: seen) rest hnd.2 ?hdisj2]
    case hdisj2 =>
      intro k hk
      simp only [List.mem_cons]
      rintro (rfl | hkseen)
      · exact hnd.1 hk
      · exact hdisj k (by simp [hk]) hkseen
    simp only [List.cons_append, List.map_cons]
    refine congrArg (fun z => r :: (rs ++ z)) (dedupByKeyAux_congr rest _ _ ?_)
    intro k
    simp only [List.mem_append, List.mem_cons]
    tauto

/-- C6: merging two sources with disjoint key sets yields a record count
equal to the sum of the input counts, and merging a source with itself
(deduplicating by the key (source, id)) produces no growth in record
count. -/
theorem claim6_merge_counts (a b : List Record)
    (ha : (a.map mergeKey).Nodup) (hb : (b.map mergeKey).Nodup)
    (hab : ∀ k ∈ a.map mergeKey, k ∉ b.map mergeKey) :
    (mergeReduce a b).length = a.length + b.length ∧
    (mergeReduce a a).length = a.length := by
  constructor
  · unfold mergeReduce
    rw [dedupByKeyAux_disjoint (a ++ b) [] ?nd (by simp)]
    · exact List.length_append a b
    case nd =>
      rw [List.map_append, List.nodup_append]
      exact ⟨ha, hb, hab⟩
  · unfold mergeReduce
    rw [dedupByKeyAux_append a [] a ha (by simp)]
    rw [dedupByKeyAux_all_seen a (a.map mergeKey ++ []) ?hall]
    · simp
    case hall =>
      intro r hr
      simp only [List.mem_append, List.mem_map]
      exact Or.inl ⟨r, hr, rfl⟩

theorem claim6_witness :
    (([mkInitial "a" SourceTag.primary].map mergeKey).Nodup) ∧
    (([mkInitial "a" SourceTag.secondary].map mergeKey).Nodup) ∧
    (∀ k ∈ [mkInitial "a" SourceTag.primary].map mergeKey,
      k ∉ [mkInitial "a" SourceTag.secondary].map mergeKey) ∧
    (mergeReduce [mkInitial "a" SourceTag.primary]
        [mkInitial "a" SourceTag.secondary]).length = 1 + 1 ∧
    (mergeReduce [mkInitial "a" SourceTag.primary]
        [mkInitial "a" SourceTag.primary]).length = 1 :=
  ⟨by decide, by decide, by decide,
    (claim6_merge_counts [mkInitial "a" SourceTag.primary]
      [mkInitial "a" SourceTag.secondary] (by decide) (by decide) (by decide)).1,
    (claim6_merge_counts [mkInitial "a" SourceTag.primary]
      [mkInitial "a" SourceTag.secondary] (by decide) (by decide) (by decide)).2⟩

theorem firstIdx_cons (a x : String) (xs : List String) :
    firstIdx a (x :: xs) = if x = a then 0 else firstIdx a xs + 1 := rfl

theorem dedupFirstAux_cons_mem (seen : List String) (a : String) (t : List String)
    (h : a ∈ seen) : dedupFirstAux seen (a :: t) = dedupFirstAux seen t := by
  conv_lhs => unfold dedupFirstAux
  rw [if_pos h]

theorem dedupFirstAux_cons_nomem (seen : List String) (a : String) (t : List String)
    (h : a ∉ seen) : dedupFirstAux seen (a :: t) = a :: dedupFirstAux (a :: seen) t := by
  conv_lhs => unfold dedupFirstAux
  rw [if_neg h]

theorem dedupFirstAux_mem (l : List String) :
    ∀ seen x, x ∈ dedupFirstAux seen l ↔ (x ∈ l ∧ x ∉ seen) := by
  induction l with
  | nil => intro seen x; simp [dedupFirstAux]
  | cons a t ih =>
    intro seen x
    by_cases ha : a ∈ seen
    · rw [dedupFirstAux_cons_mem seen a t ha, ih]
      simp only [List.mem_cons]
      constructor
      · rintro ⟨h1, h2⟩
        exact ⟨Or.inr h1, h2⟩
      · rintro ⟨(rfl | h1), h2⟩
        · exact absurd ha h2
        · exact ⟨h1, h2⟩
    · rw [dedupFirstAux_cons_nomem seen a t ha]
      simp only [List.mem_cons, ih]
      constructor
      · rintro (rfl | ⟨h1, h2⟩)
        · exact ⟨Or.inl rfl, ha⟩
        · simp only [List.mem_cons, not_or] at h2
          exact ⟨Or.inr h1, h2.2⟩
      · rintro ⟨(rfl | h1), h2⟩
        · exact Or.inl rfl
        · by_cases hxa : x = a
          · exact Or.inl hxa
          · exact Or.inr ⟨h1, by simp [hxa, h2]⟩

theorem dedupFirstAux_nodup (l : List String) :
    ∀ seen, (dedupFirstAux seen l).Nodup := by
  induction l with
  | nil => intro _; simp [dedupFirstAux]
  | cons a t ih =>
    intro seen
    by_cases ha : a ∈ seen
    · rw [dedupFirstAux_cons_mem seen a t ha]; exact ih seen
    · rw [dedupFirstAux_cons_nomem seen a t ha]
      refine List.nodup_cons.mpr ⟨?_, ih (a :: seen)⟩
      intro hmem
      exact ((dedupFirstAux_mem t (a :: seen) a).mp hmem).2 (List.mem_cons_self a seen)

theorem dedupFirstAux_order (l : List String) :
    ∀ seen x y, x ∈ dedupFirstAux seen l → y ∈ dedupFirstAux seen l →
      firstIdx x (dedupFirstAux seen l) < firstIdx y (dedupFirstAux seen l) →
      firstIdx x l < firstIdx y l := by
  induction l with
  | nil => intro seen x y hx; simp [dedupFirstAux] at hx
  | cons a t ih =>
    intro seen x y hx hy hlt
    by_cases ha : a ∈ seen
    · rw [dedupFirstAux_cons_mem seen a t ha] at hx hy hlt
      have hxa : x ≠ a := by
        rintro rfl
        exact ((dedupFirstAux_mem t seen x).mp hx).2 ha
      have hya : y ≠ a := by
        rintro rfl
        exact ((dedupFirstAux_mem t seen y).mp hy).2 ha
      have hrec := ih seen x y hx hy hlt
      rw [firstIdx_cons, firstIdx_cons, if_neg (Ne.symm hxa), if_neg (Ne.symm hya)]
      omega
    · rw [dedupFirstAux_cons_nomem seen a t ha] at hx hy hlt
      rw [firstIdx_cons, firstIdx_cons] at hlt
      by_cases hya : y = a
      · exfalso
        rw [if_pos hya.symm] at hlt
        omega
      · rw [if_neg (Ne.symm hya)] at hlt
        by_cases hxa : x = a
        · rw [firstIdx_cons, firstIdx_cons, if_pos hxa.symm, if_neg (Ne.symm hya)]
          omega
        · rw [if_neg (Ne.symm hxa)] at hlt
          have hx1 : x ∈ dedupFirstAux (a :: seen) t := by
            rcases List.mem_cons.mp hx with h | h
            · exact absurd h hxa
            · exact h
          have hy1 : y ∈ dedupFirstAux (a :: seen) t := by
            rcases List.mem_cons.mp hy with h | h
            · exact absurd h hya
            · exact h
          have hrec := ih (a :: seen) x y hx1 hy1 (by omega)
          rw [firstIdx_cons, firstIdx_cons, if_neg (Ne.symm hxa), if_neg (Ne.symm hya)]
          omega

/-- C7: the extracted legal_acts_cited list of a record's full text has no
duplicate entries, contains exactly the acts occurring in the text, and
lists them in the order of each act's first occurrence (an act listed
before another has its first text occurrence earlier). -/
theorem claim7_acts_dedup_first_seen (t : String) :
    (legalActsCited t).Nodup ∧
    (∀ x, x ∈ legalActsCited t ↔ x ∈ actMatches t.toList) ∧
    (∀ x y, x ∈ legalActsCited t → y ∈ legalActsCited t →
      firstIdx x (legalActsCited t) < firstIdx y (legalActsCited t) →
      firstIdx x (actMatches t.toList) < firstIdx y (actMatches t.toList)) := by
  refine ⟨dedupFirstAux_nodup _ [], ?_, ?_⟩
  · intro x
    unfold legalActsCited
    rw [dedupFirstAux_mem]
    simp
  · intro x y hx hy hlt
    exact dedupFirstAux_order (actMatches t.toList) [] x y hx hy hlt

theorem claim7_witness :
    ("Act 1985" ∈ legalActsCited
      "the Housing Act 1985 then the Rent Act 1977 then the Housing Act 1985 again") ∧
    ("Act 1977" ∈ legalActsCited
      "the Housing Act 1985 then the Rent Act 1977 then the Housing Act 1985 again") ∧
    (firstIdx "Act 1985" (legalActsCited
        "the Housing Act 1985 then the Rent Act 1977 then the Housing Act 1985 again") <
      firstIdx "Act 1977" (legalActsCited
        "the Housing Act 1985 then the Rent Act 1977 then the Housing Act 1985 again")) ∧
    (legalActsCited
      "the Housing Act 1985 then the Rent Act 1977 then the Housing Act 1985 again").Nodup ∧
    (firstIdx "Act 1985" (actMatches
        "the Housing Act 1985 then the Rent Act 1977 then the Housing Act 1985 again".toList) <
      firstIdx "Act 1977" (actMatches
        "the Housing Act 1985 then the Rent Act 1977 then the Housing Act 1985 again".toList)) :=
  ⟨by decide, by decide, by decide,
    (claim7_acts_dedup_first_seen
      "the Housing Act 1985 then the Rent Act 1977 then the Housing Act 1985 again").1,
    (claim7_acts_dedup_first_seen
      "the Housing Act 1985 then the Rent Act 1977 then the Housing Act 1985 again").2.2
      "Act 1985" "Act 1977" (by decide) (by decide) (by decide)⟩

theorem renderResults_filtered (s : UIState) : (renderResults s).1.filtered = s.filtered :=
  rfl

theorem renderResults_page (s : UIState) : (renderResults s).1.currentPage = clampedPage s :=
  rfl

theorem totalPagesOf_pos (n : Nat) : 1 ≤ totalPagesOf n :=
  le_max_left 1 _

theorem clampedPage_bounds (s : UIState) (h : 1 ≤ s.currentPage) :
    1 ≤ clampedPage s ∧ clampedPage s ≤ totalPagesOf s.filtered.length := by
  unfold clampedPage
  have h1 := totalPagesOf_pos s.filtered.length
  by_cases hgt : s.currentPage > totalPagesOf s.filtered.length
  · rw [if_pos hgt]
    exact ⟨h1, le_refl _⟩
  · rw [if_neg hgt]
    omega

theorem renderResults_rows_le (s : UIState) : (renderResults s).2 ≤ PAGE_SIZE := by
  show ((s.filtered.drop ((clampedPage s - 1) * PAGE_SIZE)).take
      (min ((clampedPage s - 1) * PAGE_SIZE + PAGE_SIZE) s.filtered.length -
        (clampedPage s - 1) * PAGE_SIZE)).length ≤ PAGE_SIZE
  have h1 := List.length_take_le
    (min ((clampedPage s - 1) * PAGE_SIZE + PAGE_SIZE) s.filtered.length -
      (clampedPage s - 1) * PAGE_SIZE)
    (s.filtered.drop ((clampedPage s - 1) * PAGE_SIZE))
  have h2 := Nat.min_le_left ((clampedPage s - 1) * PAGE_SIZE + PAGE_SIZE) s.filtered.length
  omega

theorem stepUI_inv (s : UIState) (e : UIEvent)
    (h : 1 ≤ s.currentPage ∧ s.currentPage ≤ totalPagesOf s.filtered.length) :
    1 ≤ (stepUI s e).currentPage ∧
      (stepUI s e).currentPage ≤ totalPagesOf (stepUI s e).filtered.length := by
  cases e with
  | applyFiltersEv rawQuery cat subcat region yearFrom yearTo =>
    simp only [stepUI]
    rw [renderResults_page, renderResults_filtered]
    exact clampedPage_bounds _ (Nat.le_refl 1)
  | sortChangeEv le =>
    simp only [stepUI]
    rw [renderResults_page, renderResults_filtered]
    exact clampedPage_bounds _ (Nat.le_refl 1)
  | prevPageEv =>
    simp only [stepUI]
    by_cases h1 : s.currentPage > 1
    · rw [if_pos h1, renderResults_page, renderResults_filtered]
      exact clampedPage_bounds _ (by show 1 ≤ s.currentPage - 1; omega)
    · rw [if_neg h1]
      exact h
  | nextPageEv =>
    simp only [stepUI]
    by_cases h1 : s.currentPage < (s.filtered.length + PAGE_SIZE - 1) / PAGE_SIZE
    · rw [if_pos h1, renderResults_page, renderResults_filtered]
      exact clampedPage_bounds _ (by show 1 ≤ s.currentPage + 1; omega)
    · rw [if_neg h1]
      exact h

theorem foldl_stepUI_inv (evs : List UIEvent) :
    ∀ s : UIState, 1 ≤ s.currentPage ∧ s.currentPage ≤ totalPagesOf s.filtered.length →
      1 ≤ (evs.foldl stepUI s).currentPage ∧
        (evs.foldl stepUI s).currentPage ≤
          totalPagesOf (evs.foldl stepUI s).filtered.length := by
  induction evs with
  | nil => intro s h; exact h
  | cons e evs ih =>
    intro s h
    exact ih (stepUI s e) (stepUI_inv s e h)

/-- C8: after any interaction sequence on the results view, currentPage
lies between 1 and totalPages, where totalPages is the maximum of 1 and
the number of filtered decisions divided by PAGE_SIZE rounded up, and the
number of decision rows rendered on the current page is at most PAGE_SIZE
(50). -/
theorem claim8_pagination (all : List Decision) (le : Decision → Decision → Bool)
    (evs : List UIEvent) :
    1 ≤ (runUI all le evs).currentPage ∧
    (runUI all le evs).currentPage ≤ totalPagesOf (runUI all le evs).filtered.length ∧
    (renderResults (runUI all le evs)).2 ≤ PAGE_SIZE := by
  have hinit : 1 ≤ (initUI all le).currentPage ∧
      (initUI all le).currentPage ≤ totalPagesOf (initUI all le).filtered.length := by
    refine stepUI_inv _ _ ⟨Nat.le_refl 1, ?_⟩
    show 1 ≤ totalPagesOf ([] : List Decision).length
    exact totalPagesOf_pos _
  have h := foldl_stepUI_inv evs (initUI all le) hinit
  exact ⟨h.1, h.2, renderResults_rows_le _⟩

theorem char_isDigit_toNat (c : Char) (h : c.isDigit = true) :
    48 ≤ c.toNat ∧ c.toNat ≤ 57 := by
  unfold Char.isDigit at h
  simp only [Bool.and_eq_true, decide_eq_true_eq] at h
  unfold Char.toNat
  exact ⟨h.1, h.2⟩

theorem digitsVal_foldl_lt (l : List Char) :
    ∀ a : Nat, (∀ c ∈ l, c.isDigit = true) →
      l.foldl (fun a c => 10 * a + (c.toNat - 48)) a < (a + 1) * 10 ^ l.length := by
  induction l with
  | nil => intro a _; simp
  | cons c t ih =>
    intro a hall
    have hc := char_isDigit_toNat c (hall c (List.mem_cons_self c t))
    have ih' := ih (10 * a + (c.toNat - 48)) (fun x hx => hall x (List.mem_cons_of_mem c hx))
    calc (c :: t).foldl (fun a c => 10 * a + (c.toNat - 48)) a
        = t.foldl (fun a c => 10 * a + (c.toNat - 48)) (10 * a + (c.toNat - 48)) := rfl
      _ < (10 * a + (c.toNat - 48) + 1) * 10 ^ t.length := ih'
      _ ≤ ((a + 1) * 10) * 10 ^ t.length := Nat.mul_le_mul_right _ (by omega)
      _ = (a + 1) * 10 ^ (t.length + 1) := by ring
      _ = (a + 1) * 10 ^ (c :: t).length := by rw [List.length_cons]

theorem digitsVal_lt (l : List Char) (h : ∀ c ∈ l, c.isDigit = true) :
    digitsVal l < 10 ^ l.length := by
  have := digitsVal_foldl_lt l 0 h
  simpa [digitsVal] using this

theorem parseYearChars_le (l : List Char) (y : Nat)
    (h : parseYearChars (l.take 4) = some y) : y ≤ 9999 := by
  unfold parseYearChars at h
  by_cases hds : (l.take 4).takeWhile (fun c => c.isDigit) = []
  · rw [if_pos hds] at h
    cases h
  · rw [if_neg hds] at h
    have hy : y = digitsVal ((l.take 4).takeWhile (fun c => c.isDigit)) :=
      (Option.some_inj.mp h).symm
    have hdig : ∀ c ∈ (l.take 4).takeWhile (fun c => c.isDigit), c.isDigit = true :=
      fun c hc => List.mem_takeWhile_imp hc
    have hlen : ((l.take 4).takeWhile (fun c => c.isDigit)).length ≤ 4 := by
      have h1 : ((l.take 4).takeWhile (fun c => c.isDigit)).length ≤ (l.take 4).length :=
        List.Sublist.length_le (List.takeWhile_sublist _)
      have h2 := List.length_take_le 4 l
      omega
    have hbound := digitsVal_lt _ hdig
    have hpow : (10 : Nat) ^ ((l.take 4).takeWhile (fun c => c.isDigit)).length ≤ 10 ^ 4 :=
      Nat.pow_le_pow_right (by omega) hlen
    omega

theorem yearPass_default (d : Decision) : yearPass d 0 9999 = true := by
  cases hd : d.decision_date with
  | none =>
    unfold yearPass
    rw [hd]
    rfl
  | some ds =>
    have hmatch : yearPass d 0 9999 =
        match parseYearChars (ds.toList.take 4) with
        | some y => !(decide (y < 0) || decide (y > 9999))
        | Option.none => true := by
      unfold yearPass
      rw [hd]
    rw [hmatch]
    cases hp : parseYearChars (ds.toList.take 4) with
    | none => rfl
    | some y =>
      have hy := parseYearChars_le ds.toList y hp
      have h2 : ¬(y > 9999) := by omega
      simp [h2]

theorem decisionPass_cleared (tokens : List (List Char)) (d : Decision) :
    decisionPass tokens "" "" "" 0 9999 d =
      tokens.all (fun tok => occursChars tok (searchableOf d)) := by
  unfold decisionPass
  rw [yearPass_default]
  simp [textPass]

/-- C9: with everything else cleared, a decision is in applyFilters' output
iff it is in the loaded list and every whitespace-separated token of the
trimmed lower-cased query occurs as a substring of the lower-cased
space-joined concatenation of its eight searchable fields (absent fields
read as empty strings); an empty query (no tokens) passes every decision,
and any filtered result only contains loaded decisions. -/
theorem claim9_text_search (all : List Decision) (rawQuery : String) (d : Decision) :
    (d ∈ applyFiltersList all rawQuery "" "" "" 0 9999 ↔
      d ∈ all ∧ ∀ tok ∈ queryTokens rawQuery, occursChars tok (searchableOf d) = true) ∧
    (queryTokens rawQuery = [] → d ∈ all →
      d ∈ applyFiltersList all rawQuery "" "" "" 0 9999) ∧
    (∀ cat subcat region yearFrom yearTo,
      d ∈ applyFiltersList all rawQuery cat subcat region yearFrom yearTo → d ∈ all) := by
  refine ⟨?_, ?_, ?_⟩
  · unfold applyFiltersList
    rw [List.mem_filter, decisionPass_cleared]
    exact and_congr_right (fun _ => List.all_eq_true)
  · intro hq hmem
    unfold applyFiltersList
    rw [List.mem_filter, decisionPass_cleared, hq]
    exact ⟨hmem, rfl⟩
  · intro cat subcat region yearFrom yearTo hmem
    exact (List.mem_filter.mp hmem).1

theorem claim9_witness :
    queryTokens "" = [] ∧ sampleDecision ∈ [sampleDecision] ∧
    sampleDecision ∈ applyFiltersList [sampleDecision] "" "" "" "" 0 9999 :=
  ⟨rfl, List.mem_singleton.mpr rfl,
    (claim9_text_search [sampleDecision] "" sampleDecision).2.1 rfl
      (List.mem_singleton.mpr rfl)⟩

theorem decisionPass_undated (d : Decision) (yearFrom yearTo : Nat)
    (hdate : d.decision_date = Option.none) :
    decisionPass (queryTokens "") "" "" "" yearFrom yearTo d =
      !decide (0 < yearFrom) := by
  unfold decisionPass yearPass
  rw [hdate]
  simp [textPass, queryTokens, wordsAux, lowerChars]

/-- C10: a decision with no decision_date is excluded by applyFilters (all
other filters cleared) exactly when a positive "year from" is selected;
selecting only a "year to" (year from left at its unset value 0) never
excludes an undated decision. -/
theorem claim10_undated_year_filter (all : List Decision) (d : Decision)
    (yearFrom yearTo : Nat)
    (hdate : d.decision_date = Option.none) (hmem : d ∈ all) :
    (d ∉ applyFiltersList all "" "" "" "" yearFrom yearTo ↔ 0 < yearFrom) ∧
    d ∈ applyFiltersList all "" "" "" "" 0 yearTo := by
  constructor
  · constructor
    · intro hnot
      by_contra h0
      have hpass : decisionPass (queryTokens "") "" "" "" yearFrom yearTo d = true := by
        rw [decisionPass_undated d yearFrom yearTo hdate]
        simp [h0]
      exact hnot (List.mem_filter.mpr ⟨hmem, hpass⟩)
    · intro hyf hmem2
      have hpass := (List.mem_filter.mp hmem2).2
      rw [decisionPass_undated d yearFrom yearTo hdate] at hpass
      simp [hyf] at hpass
  · refine List.mem_filter.mpr ⟨hmem, ?_⟩
    rw [decisionPass_undated d 0 yearTo hdate]
    rfl

theorem claim10_witness :
    sampleDecision.decision_date = Option.none ∧
    sampleDecision ∈ [sampleDecision] ∧
    sampleDecision ∉ applyFiltersList [sampleDecision] "" "" "" "" 1995 2005 ∧
    sampleDecision ∈ applyFiltersList [sampleDecision] "" "" "" "" 0 2005 :=
  ⟨rfl, List.mem_singleton.mpr rfl,
    (claim10_undated_year_filter [sampleDecision] sampleDecision 1995 2005 rfl
      (List.mem_singleton.mpr rfl)).1.mpr (by omega),
    (claim10_undated_year_filter [sampleDecision] sampleDecision 1995 2005 rfl
      (List.mem_singleton.mpr rfl)).2⟩

end Tribunal
